import Mathlib

/-!
# Verification of the surge download engine against its specification

Shallow embedding of the core of the `surge` HTTP downloader
(`internal/downloader/downloader.go`, `internal/downloader/queue.go`,
`internal/utils` and the `utils.DetermineFilename` helper), together with
theorems settling the frozen claims about the natural-language
specification.

Byte contents are modelled as `List Nat`, Go `int64` values as `Int`
(no overflow is possible at the sizes involved), and the cryptographic
hash functions (`crypto/md5`, `crypto/sha256`) are abstracted as function
parameters `List Nat → String`, since every claim is about the
surrounding control flow and not about the hash algorithms themselves.
-/

namespace Surge

/-! ## Range planner (concurrentDownload, downloader.go lines 259-295)

`chunkSize := totalSize / int64(concurrent)`; the loop for
`i := 0; i < concurrent; i++` sets `start := int64(i) * chunkSize`,
`end := start + chunkSize - 1`, and for the last index
`end = totalSize - 1`.  Go `int64` division truncates toward zero; all
operands here are non-negative, so `Int` division agrees. -/

/-- `chunkSize := totalSize / int64(concurrent)` (downloader.go line 264).
Go `int64` division truncates toward zero, which is `Int.tdiv`. -/
def chunkSizeOf (totalSize : Int) (concurrent : Nat) : Int :=
  Int.tdiv totalSize (concurrent : Int)

/-- `start := int64(i) * chunkSize` (downloader.go line 282). -/
def taskStart (totalSize : Int) (concurrent i : Nat) : Int :=
  (i : Int) * chunkSizeOf totalSize concurrent

/-- `end := start + chunkSize - 1`, overridden to `totalSize - 1` for the
last index (downloader.go lines 283-286). -/
def taskEnd (totalSize : Int) (concurrent i : Nat) : Int :=
  if i = concurrent - 1 then totalSize - 1
  else taskStart totalSize concurrent i + chunkSizeOf totalSize concurrent - 1

/-- The (inclusive-start, inclusive-end) byte ranges requested by the
chunk goroutines, in loop order. -/
def tasks (totalSize : Int) (concurrent : Nat) : List (Int × Int) :=
  (List.range concurrent).map fun i =>
    (taskStart totalSize concurrent i, taskEnd totalSize concurrent i)

/-- The set of byte offsets covered by task `i`
(`Range: bytes=start-end` is inclusive on both ends). -/
def taskRange (totalSize : Int) (concurrent i : Nat) : Finset Int :=
  Finset.Ico (taskStart totalSize concurrent i)
    (taskEnd totalSize concurrent i + 1)

/-- The body bytes served for an inclusive byte range `[s, e]`
(`Range: bytes=s-e`, downloader.go line 349). -/
def sliceIncl (data : List Nat) (s e : Int) : List Nat :=
  if s ≤ e then (data.drop s.toNat).take (e - s + 1).toNat else []

/-- The bytes written to part file `i` by `downloadChunk`: the body of the
ranged request for task `i`. -/
def chunkData (data : List Nat) (concurrent i : Nat) : List Nat :=
  sliceIncl data (taskStart (data.length : Int) concurrent i)
    (taskEnd (data.length : Int) concurrent i)

/-! ## Filesystem visibility model (C1)

What is observable on disk at the output directory while a download runs:
the temporary file of `singleDownload`, the `.part<i>` files of
`concurrentDownload`, and the final destination path.  Each constructor of
`FsOp` is one filesystem call made by downloader.go; `stepFS` gives its
effect.  The chunk goroutines of the concurrent path touch only their own
distinct part files and never the final path, so their interleaving is
irrelevant to final-path visibility and the merge phase (lines 299-321),
which runs strictly after `wg.Wait()`, is modelled as the sequential
program it is. -/

inductive FsOp where
  /-- `os.CreateTemp(outDir, filename+".surge")` (downloader.go line 96). -/
  | createTemp : FsOp
  /-- the tee copy loop appending the body to the temp file (lines 122-144). -/
  | writeTemp (bs : List Nat) : FsOp
  /-- `utils.VerifyChecksum(...)` reads a file, writes nothing (line 153 / 332). -/
  | verifyFile : FsOp
  /-- `os.Rename(tmpPath, destPath)` succeeding (line 187): one atomic
  replacement of the final path by the temp file. -/
  | renameTempFinal : FsOp
  /-- `os.Create` at the final destination path: line 193 in the
  rename-failure fallback of `singleDownload`, line 302 at the start of
  the merge of `concurrentDownload`.  Creates or truncates the file. -/
  | createFinal : FsOp
  /-- one `Write` to the final path inside `io.Copy(out, in)` of the
  rename-failure fallback (line 198); `io.Copy` streams in chunks of at
  most 32 KiB, so a run performs one such write per chunk. -/
  | appendFinal (bs : List Nat) : FsOp
  /-- `os.Remove(tmpPath)` after the manual copy (line 219). -/
  | removeTemp : FsOp
  /-- `io.Copy(destFile, partFile)` for part `i` (line 314). -/
  | appendPart (i : Nat) : FsOp
  /-- `os.Remove(partFileName)` (line 320). -/
  | removePart (i : Nat) : FsOp
deriving DecidableEq

/-- Contents visible on disk: the temp file, the part files (association
list indexed by part number), and the final destination path. -/
structure FS where
  temp : Option (List Nat)
  parts : List (Nat × List Nat)
  final : Option (List Nat)
deriving DecidableEq

def FS.empty : FS := ⟨none, [], none⟩

def stepFS (s : FS) : FsOp → FS
  | .createTemp => { s with temp := some [] }
  | .writeTemp bs => { s with temp := s.temp.map (· ++ bs) }
  | .verifyFile => s
  | .renameTempFinal => { s with final := s.temp, temp := none }
  | .createFinal => { s with final := some [] }
  | .appendFinal bs => { s with final := s.final.map (· ++ bs) }
  | .removeTemp => { s with temp := none }
  | .appendPart i => { s with final := s.final.map (· ++ ((s.parts.lookup i).getD [])) }
  | .removePart i => { s with parts := s.parts.filter (fun p => p.1 != i) }

/-- Every filesystem state reached while executing the operations in
order, initial state included. -/
def statesFS (s : FS) : List FsOp → List FS
  | [] => [s]
  | op :: ops => s :: statesFS (stepFS s op) ops

/-- Filesystem operations of `singleDownload` after a successful response,
on the execution where the rename succeeds: create the temp file
(line 96), stream the body into it (lines 122-144), verify (line 153),
rename to the final path (line 187). -/
def singleOps (body : List Nat) : List FsOp :=
  [.createTemp, .writeTemp body, .verifyFile, .renameTempFinal]

def singleStates (body : List Nat) : List FS :=
  statesFS FS.empty (singleOps body)

/-- Filesystem operations of `singleDownload` on the execution where
`os.Rename` fails (cross-device, lines 187-224): after the same
temp-file phase, `os.Create(destPath)` (line 193) truncates the final
path, `io.Copy(out, in)` (line 198) streams the temp file's content into
it chunk by chunk, and `os.Remove(tmpPath)` (line 219) drops the temp
file.  `io.Copy`'s chunk boundaries (at most 32 KiB each) are a run-time
detail, so the partition of the body into written chunks is a
parameter. -/
def singleFailOps (body : List Nat) (chunks : List (List Nat)) : List FsOp :=
  [.createTemp, .writeTemp body, .verifyFile, .createFinal] ++
    chunks.map FsOp.appendFinal ++ [.removeTemp]

def singleFailStates (body : List Nat) (chunks : List (List Nat)) : List FS :=
  statesFS FS.empty (singleFailOps body chunks)

/-- The part files present when the merge phase of `concurrentDownload`
starts: part `i` holds the body of the ranged request for task `i`. -/
def partsList (data : List Nat) (concurrent : Nat) : List (Nat × List Nat) :=
  (List.range concurrent).map fun i => (i, chunkData data concurrent i)

/-- Filesystem operations of the merge phase (downloader.go lines
299-332): `os.Create(finalDestPath)`, then for each `i` in order
`io.Copy(destFile, partFile)` and `os.Remove(partFileName)`, then checksum
verification of the file at the final path (lines 324-334). -/
def mergeOps (concurrent : Nat) : List FsOp :=
  FsOp.createFinal ::
    ((List.range concurrent).flatMap (fun i => [FsOp.appendPart i, FsOp.removePart i]) ++
      [FsOp.verifyFile])

def mergeStart (data : List Nat) (concurrent : Nat) : FS :=
  { temp := none, parts := partsList data concurrent, final := none }

def mergeStates (data : List Nat) (concurrent : Nat) : List FS :=
  statesFS (mergeStart data concurrent) (mergeOps concurrent)

/-- C1's invariant at the final destination path: at every instant the
final path either does not hold downloaded content or holds every byte of
the resource. -/
def finalOnlyComplete (full : List Nat) (sts : List FS) : Prop :=
  ∀ st ∈ sts, st.final = none ∨ st.final = some full

instance (full : List Nat) (sts : List FS) : Decidable (finalOnlyComplete full sts) :=
  inferInstanceAs (Decidable (∀ st ∈ sts, _ ∨ _))

/-! ## Integrity verifier (`utils.VerifyChecksum`, C3)

The crypto hash functions are abstracted as parameters; the result pairs
the returned error (as `Option String`, `none` for `nil`) with the number
of hash computations performed (`io.Copy` into a hasher). -/

inductive HashKind where
  | md5 : HashKind
  | sha256 : HashKind
deriving DecidableEq

def hashOf (md5Hex sha256Hex : List Nat → String) : HashKind → List Nat → String
  | .md5 => md5Hex
  | .sha256 => sha256Hex

/-- `utils.VerifyChecksum` (reporter.go source block, lines 90-172): the
four digest candidates are tried in the order user MD5, user SHA-256,
server `Content-MD5`, server `X-Checksum-SHA256`; the first non-empty one
is hashed against and decides the result. -/
def VerifyChecksum (md5Hex sha256Hex : List Nat → String) (file : List Nat)
    (md5sum sha256sum serverMD5 serverSHA256 : String) : Option String × Nat :=
  if md5sum ≠ "" then
    let computed := md5Hex file
    (if computed ≠ md5sum then
        some ("MD5 checksum mismatch: expected " ++ md5sum ++ ", got " ++ computed)
      else none, 1)
  else if sha256sum ≠ "" then
    let computed := sha256Hex file
    (if computed ≠ sha256sum then
        some ("SHA256 checksum mismatch: expected " ++ sha256sum ++ ", got " ++ computed)
      else none, 1)
  else if serverMD5 ≠ "" then
    let computed := md5Hex file
    (if computed ≠ serverMD5 then
        some ("checksum mismatch: expected " ++ serverMD5 ++ ", got " ++ computed)
      else none, 1)
  else if serverSHA256 ≠ "" then
    let computed := sha256Hex file
    (if computed ≠ serverSHA256 then
        some ("checksum mismatch: expected " ++ serverSHA256 ++ ", got " ++ computed)
      else none, 1)
  else (none, 0)

/-- The claim's precedence order, as a selection function: the first
non-empty digest among user MD5, user SHA-256, server MD5, server SHA-256,
together with the hash algorithm it is compared under. -/
def firstCandidate (md5sum sha256sum serverMD5 serverSHA256 : String) :
    Option (HashKind × String) :=
  if md5sum ≠ "" then some (.md5, md5sum)
  else if sha256sum ≠ "" then some (.sha256, sha256sum)
  else if serverMD5 ≠ "" then some (.md5, serverMD5)
  else if serverSHA256 ≠ "" then some (.sha256, serverSHA256)
  else none

/-! ## Tail of `singleDownload`: the deferred temp-file cleanup (C4)

`singleDownload` installs (lines 108-114) a deferred closure that removes
the temp file iff the function-scope variable `err` is non-nil.  After
`os.CreateTemp` succeeds at line 96, that variable is nil and no later
statement assigns it: line 130 declares `readErr`, line 142 returns a
wrapped `readErr`, line 153 (`if err := utils.VerifyChecksum(...)`) and
line 175 (`if info, err := os.Stat(...)`) declare new `err` variables
scoped to their `if` statements, and line 187 declares `renameErr`.  The
model carries that function-scope variable explicitly as `outerErr`. -/

structure SingleRunResult where
  /-- the error value `singleDownload` returns (`none` for `nil`). -/
  ret : Option String
  /-- whether the temp file has been removed when the function returns. -/
  tempDeleted : Bool
  /-- whether the temp file was renamed onto the final path. -/
  tempRenamed : Bool
deriving DecidableEq

/-- Control flow of `singleDownload` from the verification call (line 153)
to the return, for a run whose copy loop succeeded. -/
def singleFinish (verifyErr : Option String) (renameFails : Bool) : SingleRunResult :=
  let outerErr : Option String := none
  match verifyErr with
  | some e =>
      -- line 154: `return err` returns the shadowed inner error; the
      -- deferred cleanup then tests outerErr (still nil) and keeps the file.
      { ret := some e, tempDeleted := outerErr.isSome, tempRenamed := false }
  | none =>
      if renameFails then
        -- lines 187-223: manual copy, `os.Remove(tmpPath)` (line 219),
        -- then `return fmt.Errorf("rename failed: ...")`.
        { ret := some "rename failed", tempDeleted := true, tempRenamed := false }
      else
        -- line 187 succeeded: the temp file now IS the final file.
        { ret := none, tempDeleted := false, tempRenamed := true }

/-- `singleDownload` outcome as a function of the body and the digest
inputs, with the rename succeeding (the happy filesystem path). -/
def singleDownloadOutcome (md5Hex sha256Hex : List Nat → String) (body : List Nat)
    (md5sum sha256sum serverMD5 serverSHA256 : String) : SingleRunResult :=
  singleFinish
    (VerifyChecksum md5Hex sha256Hex body md5sum sha256sum serverMD5 serverSHA256).1
    false

/-! ## Range-support probe and dispatch (C5) -/

inductive DownloadPath where
  | single : DownloadPath
  | ranged : DownloadPath
deriving DecidableEq

/-- downloader.go line 248: the only range-support test the concurrent
path performs is `resp.Header.Get("Accept-Ranges") != "bytes"`. -/
def acceptsRanges (acceptRangesHeader : String) : Bool :=
  acceptRangesHeader == "bytes"

/-- `concurrentDownload` (lines 248-251): fall back to `singleDownload`
iff the `Accept-Ranges` header is not exactly `bytes`; the response status
code is not consulted. -/
def concurrentDispatch (acceptRangesHeader : String) : DownloadPath :=
  if acceptRangesHeader == "bytes" then .ranged else .single

/-- `singleDownload` (line 80): accept exactly status 200 or 206. -/
def singleStatusAccepted (status : Int) : Bool :=
  status == 200 || status == 206

/-- The claim's (spec's) range-support condition, for comparison:
`Accept-Ranges: bytes` AND status 200 or 206. -/
def specRangesSupported (acceptRangesHeader : String) (status : Int) : Bool :=
  acceptRangesHeader == "bytes" && (status == 200 || status == 206)

/-! ## Effective task count (C6) -/

/-- `Download` (downloader.go lines 32-37): the multi-connection path is
taken iff `concurrent > 1`, with the requested value passed through
unchanged. -/
def usesConcurrentPath (concurrent : Int) : Bool :=
  1 < concurrent

/-- The clamp the claim asserts (`clamp(concurrency, 1, 16)`); nothing in
downloader.go computes this. -/
def claimedEffectiveN (concurrent : Int) : Int :=
  min (max concurrent 1) 16

/-! ## Filename resolution (`utils.DetermineFilename`, C7)

`filepath.Base`, `filepath.Ext` on a Unix target and the byte-level string
conversion are embedded below; the RFC 6266 `Content-Disposition` parse
and the magic-byte table of `filetype.Match` are abstracted as inputs
(`cd`: the parsed filename when parsing succeeded; `ftExt`: the extension
of the matched kind when one matched). -/

/-- Go `path/filepath.Base` on Unix: empty path gives `"."`; trailing
slashes are dropped; the suffix after the last remaining slash is taken;
all-slash input gives `"/"`. -/
def baseChars (l : List Char) : List Char :=
  if l = [] then ['.']
  else
    let l1 := (l.reverse.dropWhile (· == '/')).reverse
    let l2 := (l1.reverse.takeWhile (· != '/')).reverse
    if l2 = [] then ['/'] else l2

def goBase (s : String) : String := String.mk (baseChars s.data)

/-- Go `path/filepath.Ext`: the suffix starting at the final dot, `""`
when there is no dot. -/
def goExt (s : String) : String :=
  if s.data.contains '.' then
    String.mk ('.' :: (s.data.reverse.takeWhile (· != '.')).reverse)
  else ""

/-- Go `string(bytes)` for the sniffed header bytes (byte-for-byte; the
names in the claims' inputs are ASCII, where this agrees with UTF-8). -/
def bytesToString (bs : List Nat) : String := String.mk (bs.map Char.ofNat)

/-- The ZIP local-file-header branch of `DetermineFilename` (part_001
lines 58-71): requires the `50 4B 03 04` signature, at least 30 sniffed
bytes, a little-endian name length at offsets 26-27 that fits in the
sniffed header, and a non-empty extracted name. -/
def zipNameOf (header : List Nat) : Option String :=
  if 4 ≤ header.length ∧ header.take 4 = [0x50, 0x4B, 0x03, 0x04] ∧ 30 ≤ header.length then
    let nameLen := header.getD 26 0 + 256 * header.getD 27 0
    if 30 + nameLen ≤ header.length then
      let zipName := bytesToString ((header.drop 30).take nameLen)
      if zipName ≠ "" then some zipName else none
    else none
  else none

/-- The common tail of `DetermineFilename` (part_001 lines 73-89): append
a magic-byte extension when the name has none, then fall back to
`download.bin` for empty, `"."` or `"/"` names. -/
def finishName (filename : String) (ftExt : Option String) : String :=
  let withExt :=
    if goExt filename = "" then
      match ftExt with
      | some ext => if ext ≠ "" then filename ++ "." ++ ext else filename
      | none => filename
    else filename
  if withExt = "" ∨ withExt = "." ∨ withExt = "/" then "download.bin" else withExt

/-- `utils.DetermineFilename` (part_001 lines 20-92).  `parsedPath` is
`parsed.Path`; `cd` is `some name` when `httpheader.ContentDisposition`
returned without error; `ftExt` is the extension `filetype.Match` yields
on the sniffed header, if any. -/
def DetermineFilename (parsedPath : String) (cd : Option String) (header : List Nat)
    (ftExt : Option String) : String :=
  let fromURL := goBase parsedPath
  let fromCD :=
    match cd with
    | some name => if name ≠ "" then goBase name else fromURL
    | none => fromURL
  let fromZip :=
    match zipNameOf header with
    | some z => goBase z
    | none => fromCD
  finishName fromZip ftExt

/-! ## Filename sanitization (C8)

The implementation of `sanitizeFilename` is not among the sources; only
its unit test (`debug_test.go`, `TestSanitizeFilename`) is.  Two models
are given: one following the specification's words, and one satisfying
every expectation of the unit test. -/

def badChars : List Char := ['/', '\\', ':', '*', '?', '"', '<', '>', '|']

def trimChars (l : List Char) : List Char :=
  ((l.dropWhile (fun c => c.isWhitespace)).reverse.dropWhile (fun c => c.isWhitespace)).reverse

/-- Modelled from the spec: `sanitizeFilename` is missing from the
sources; this follows §4.2's words literally — trim whitespace, replace
each of `/ \ : * ? " < > |` with `_`, and substitute `download.bin` when
the result is empty, `"."` or `"/"`. -/
def sanitizeFilenameSpec (s : String) : String :=
  let trimmed := String.mk (trimChars s.data)
  let replaced := String.mk (trimmed.data.map fun c => if c ∈ badChars then '_' else c)
  if replaced = "" ∨ replaced = "." ∨ replaced = "/" then "download.bin" else replaced

/-- Modelled from the spec: `sanitizeFilename` is missing from the
sources; modelled so as to satisfy every expectation of its unit test
`TestSanitizeFilename` (debug_test.go lines 96-142), which pins behavior
the spec's words contradict — backslashes act as path separators, the
name is reduced to its base component, and there is no `download.bin`
substitution. -/
def sanitizeFilename (s : String) : String :=
  let slashed := s.data.map fun c => if c = '\\' then '/' else c
  let based := baseChars slashed
  let trimmed := trimChars based
  String.mk (trimmed.map fun c => if c ∈ badChars then '_' else c)

/-- The rows of `TestSanitizeFilename` (debug_test.go lines 101-132):
`(input, expected)`. -/
def sanitizeTests : List (String × String) :=
  [("file.zip", "file.zip"),
   ("  file.zip  ", "file.zip"),
   ("path\\file.zip", "file.zip"),
   ("path/file.zip", "file.zip"),
   ("file:name.zip", "file_name.zip"),
   ("file*name.zip", "file_name.zip"),
   ("file?name.zip", "file_name.zip"),
   ("file\"name.zip", "file_name.zip"),
   ("file<name>.zip", "file_name_.zip"),
   ("file|name.zip", "file_name.zip"),
   (".", "."),
   ("/", "_"),
   ("b*c?d.zip", "b_c_d.zip"),
   ("æ–‡ä»¶.zip", "æ–‡ä»¶.zip"),
   ("fileðŸŽ‰.zip", "fileðŸŽ‰.zip"),
   (".gitignore", ".gitignore"),
   ("file.tar.gz", "file.tar.gz"),
   ("my-file.zip", "my-file.zip"),
   ("my_file.zip", "my_file.zip"),
   ("MyFile.ZIP", "MyFile.ZIP"),
   ("   ", ""),
   ("\tfile\n.zip", "file\n.zip"),
   ("file.verylongextension", "file.verylongextension"),
   ("file123.zip", "file123.zip"),
   ("file***name.zip", "file___name.zip")]

/-! ## Queue manager (`WorkerPool`, queue.go; C9, C10)

`ProgressState` itself is not among the sources (only its unit test is);
its fields and the behavior of `Pause`/`Resume` are modelled from the
spec (§3: `cancel_fn` is invoked by Pause; paused/done flags; atomic
`downloaded`), which `progress_test.go` pins (`TestProgressState_PauseResume`:
after `ps.Pause()` the state is paused and the context is cancelled;
after `ps.Resume()` it is not paused). -/

structure ProgressState where
  id : Int
  totalSize : Int
  downloaded : Int
  paused : Bool
  done : Bool
  /-- whether the state's cancel function has been invoked. -/
  cancelInvoked : Bool
deriving DecidableEq

/-- Modelled from the spec: `ProgressState.Pause` (absent from the
sources) marks the state paused and invokes its cancel function. -/
def ProgressState.pauseState (ps : ProgressState) : ProgressState :=
  { ps with paused := true, cancelInvoked := true }

/-- Modelled from the spec: `ProgressState.Resume` (absent from the
sources) clears the paused flag. -/
def ProgressState.resumeState (ps : ProgressState) : ProgressState :=
  { ps with paused := false }

/-- `activeDownload` (queue.go lines 15-18): the download config's
`State` pointer (modelled as the id of an entry of the state heap, `none`
for a nil pointer) and whether a context cancel function is registered. -/
structure ActiveDownload where
  stateId : Option Int
  hasCancel : Bool
deriving DecidableEq

inductive QueueMsg where
  | downloadPausedMsg (id downloaded : Int)
  | downloadResumedMsg (id : Int)
deriving DecidableEq

/-- The observable state of a `WorkerPool`: the `downloads` map (an
association list, keys unique as in a Go map), the heap of
`ProgressState` values the configs point into, the re-queue channel
(`taskChan`), the messages sent on `progressCh`, and the download ids
whose per-download context cancel was invoked. -/
structure WorkerPool where
  downloads : List (Int × ActiveDownload)
  states : List (Int × ProgressState)
  queued : List Int
  sent : List QueueMsg
  ctxCancelled : List Int
deriving DecidableEq

/-- Mutation through the `State` pointer: rewrite the heap entry. -/
def updateState (sts : List (Int × ProgressState)) (sid : Int)
    (f : ProgressState → ProgressState) : List (Int × ProgressState) :=
  sts.map fun p => if p.1 = sid then (p.1, f p.2) else p

/-- `WorkerPool.Pause` (queue.go lines 44-69): look up the id; absent ids
return immediately; otherwise `State.Pause()` runs when the pointer is
non-nil and a `DownloadPausedMsg` with the current downloaded count is
sent.  The `downloads` map is not modified. -/
def WorkerPool.Pause (pool : WorkerPool) (downloadID : Int) : WorkerPool :=
  match pool.downloads.lookup downloadID with
  | none => pool
  | some ad =>
    let states' :=
      match ad.stateId with
      | some sid => updateState pool.states sid ProgressState.pauseState
      | none => pool.states
    let downloaded : Int :=
      match ad.stateId with
      | some sid => (match states'.lookup sid with
        | some ps => ps.downloaded
        | none => 0)
      | none => 0
    { pool with
        states := states'
        sent := pool.sent ++ [QueueMsg.downloadPausedMsg downloadID downloaded] }

/-- `WorkerPool.Cancel` (queue.go lines 89-110): under the lock, look up
and (when present) delete the entry; absent ids then return; otherwise the
context cancel is invoked and `State.Done` is stored `true`. -/
def WorkerPool.Cancel (pool : WorkerPool) (downloadID : Int) : WorkerPool :=
  match pool.downloads.lookup downloadID with
  | none => pool
  | some ad =>
    let downloads' := pool.downloads.filter fun p => p.1 != downloadID
    let ctx' := if ad.hasCancel then pool.ctxCancelled ++ [downloadID] else pool.ctxCancelled
    let states' :=
      match ad.stateId with
      | some sid => updateState pool.states sid (fun ps => { ps with done := true })
      | none => pool.states
    { pool with downloads := downloads', ctxCancelled := ctx', states := states' }

/-- `WorkerPool.Resume` (queue.go lines 113-136): look up the id; absent
ids return immediately; otherwise `State.Resume()` runs, the config is
re-queued on `taskChan`, and a `DownloadResumedMsg` is sent. -/
def WorkerPool.Resume (pool : WorkerPool) (downloadID : Int) : WorkerPool :=
  match pool.downloads.lookup downloadID with
  | none => pool
  | some ad =>
    let states' :=
      match ad.stateId with
      | some sid => updateState pool.states sid ProgressState.resumeState
      | none => pool.states
    { pool with
        states := states'
        queued := pool.queued ++ [downloadID]
        sent := pool.sent ++ [QueueMsg.downloadResumedMsg downloadID] }

example : chunkSizeOf 10 3 = 3 := by decide
example : tasks 10 3 = [(0, 2), (3, 5), (6, 9)] := by decide
example : tasks 2 4 = [(0, -1), (0, -1), (0, -1), (0, 1)] := by decide
example : (5 : Int) ∈ taskRange 10 3 1 := by decide

/-! ### Arithmetic facts about the planner, over `Nat` mirrors -/

lemma chunkSizeOf_natCast (t N : ℕ) : chunkSizeOf (t : Int) N = ((t / N : ℕ) : Int) :=
  (Int.ofNat_tdiv t N).symm

lemma taskStart_natCast (t N i : ℕ) :
    taskStart (t : Int) N i = ((i * (t / N) : ℕ) : Int) := by
  rw [taskStart, chunkSizeOf_natCast]
  push_cast
  ring

lemma taskEnd_natCast_last (t N : ℕ) :
    taskEnd (t : Int) N (N - 1) = (t : Int) - 1 := by
  simp [taskEnd]

lemma taskEnd_natCast_mid (t N i : ℕ) (h : i ≠ N - 1) :
    taskEnd (t : Int) N i = ((i * (t / N) : ℕ) : Int) + ((t / N : ℕ) : Int) - 1 := by
  simp [taskEnd, h, taskStart_natCast, chunkSizeOf_natCast]

/-- Claim C2, disjointness half, stated over ordered indices. -/
lemma taskRange_disjoint_of_lt (t : ℕ) (N : ℕ) (i j : ℕ)
    (hj : j < N) (hij : i < j) :
    Disjoint (taskRange (t : Int) N i) (taskRange (t : Int) N j) := by
  have hiN : i ≠ N - 1 := by omega
  have hmul : (i + 1) * (t / N) ≤ j * (t / N) :=
    Nat.mul_le_mul_right _ (by omega)
  rw [Finset.disjoint_left]
  intro x hxi hxj
  rw [taskRange, Finset.mem_Ico, taskStart_natCast, taskEnd_natCast_mid t N i hiN] at hxi
  rw [taskRange, Finset.mem_Ico, taskStart_natCast] at hxj
  have h1 : ((i * (t / N) : ℕ) : Int) + ((t / N : ℕ) : Int) ≤ ((j * (t / N) : ℕ) : Int) := by
    exact_mod_cast (by simpa [Nat.add_mul, Nat.one_mul] using hmul : i * (t / N) + t / N ≤ j * (t / N))
  omega

/-- Claim C2, coverage half: an offset `x` lies in some task range iff
`0 ≤ x < t`. -/
lemma taskRange_cover (t : ℕ) (N : ℕ) (hN : 1 ≤ N) (hNt : N ≤ t) (x : Int) :
    (∃ i, i < N ∧ x ∈ taskRange (t : Int) N i) ↔ 0 ≤ x ∧ x < (t : Int) := by
  have hc1 : 1 ≤ t / N := (Nat.one_le_div_iff (by omega)).2 hNt
  have hct : N * (t / N) ≤ t := by
    calc N * (t / N) = t / N * N := by ring
    _ ≤ t := Nat.div_mul_le_self t N
  constructor
  · rintro ⟨i, hiN, hx⟩
    by_cases hlast : i = N - 1
    · subst hlast
      rw [taskRange, Finset.mem_Ico, taskStart_natCast, taskEnd_natCast_last] at hx
      have h0 : (0 : Int) ≤ ((N - 1) * (t / N) : ℕ) := Int.ofNat_nonneg _
      omega
    · rw [taskRange, Finset.mem_Ico, taskStart_natCast, taskEnd_natCast_mid t N i hlast] at hx
      have hub : (i + 1) * (t / N) ≤ t := by
        have h1 : (i + 1) * (t / N) ≤ N * (t / N) :=
          Nat.mul_le_mul_right _ (by omega)
        omega
      have hub2 : i * (t / N) + t / N ≤ t := by
        simpa [Nat.succ_mul] using hub
      have h0 : (0 : Int) ≤ ((i * (t / N) : ℕ) : Int) := Int.ofNat_nonneg _
      have hub' : ((i * (t / N) : ℕ) : Int) + ((t / N : ℕ) : Int) ≤ (t : Int) := by
        exact_mod_cast hub2
      omega
  · rintro ⟨hx0, hxt⟩
    obtain ⟨m, rfl⟩ : ∃ m : ℕ, x = (m : Int) :=
      ⟨x.toNat, (Int.toNat_of_nonneg hx0).symm⟩
    have hmt : m < t := by exact_mod_cast hxt
    by_cases hsmall : m / (t / N) < N - 1
    · refine ⟨m / (t / N), by omega, ?_⟩
      rw [taskRange, Finset.mem_Ico, taskStart_natCast,
        taskEnd_natCast_mid t N _ (by omega)]
      have hlo : m / (t / N) * (t / N) ≤ m := Nat.div_mul_le_self m (t / N)
      have hhi : m < (m / (t / N) + 1) * (t / N) :=
        (Nat.div_lt_iff_lt_mul (by omega)).1 (Nat.lt_succ_self _)
      have hlo' : ((m / (t / N) * (t / N) : ℕ) : Int) ≤ (m : Int) := by exact_mod_cast hlo
      have hhi' : (m : Int) < ((m / (t / N) * (t / N) : ℕ) : Int) + ((t / N : ℕ) : Int) := by
        exact_mod_cast (by simpa [Nat.add_mul, Nat.one_mul] using hhi :
          m < m / (t / N) * (t / N) + t / N)
      omega
    · refine ⟨N - 1, by omega, ?_⟩
      rw [taskRange, Finset.mem_Ico, taskStart_natCast, taskEnd_natCast_last]
      have hlo : (N - 1) * (t / N) ≤ m :=
        (Nat.le_div_iff_mul_le (by omega)).1 (by omega)
      have hlo' : (((N - 1) * (t / N) : ℕ) : Int) ≤ (m : Int) := by exact_mod_cast hlo
      omega

/-! ### Trace facts for the filesystem model (C1) -/

lemma self_mem_statesFS (ops : List FsOp) (s : FS) : s ∈ statesFS s ops := by
  cases ops <;> simp [statesFS]

lemma lookup_partsList_zero (data : List Nat) (m : Nat) :
    (partsList data (m + 1)).lookup 0 = some (chunkData data (m + 1) 0) := by
  simp [partsList, List.range_succ_eq_map, List.lookup]

lemma chunkData_zero (data : List Nat) (N : Nat) (h2 : 2 ≤ N) :
    chunkData data N 0 = data.take (data.length / N) := by
  have hne : (0 : Nat) ≠ N - 1 := by omega
  rw [chunkData, taskEnd_natCast_mid _ _ _ hne, taskStart_natCast, sliceIncl]
  simp only [Nat.zero_mul, Nat.cast_zero, zero_add, sub_zero, Int.toNat_zero, List.drop_zero]
  generalize data.length / N = c
  split_ifs with h
  · congr 1
    omega
  · have hc0 : c = 0 := by omega
    rw [hc0]
    simp

/-- The state of the merge after `os.Create(finalDestPath)` and the copy
of part 0: the final path holds exactly the first chunk. -/
lemma merge_second_state (data : List Nat) (n : Nat) :
    stepFS (stepFS (mergeStart data (n + 2)) FsOp.createFinal) (FsOp.appendPart 0) =
      { temp := none
        parts := partsList data (n + 2)
        final := some (chunkData data (n + 2) 0) } := by
  have hl : (partsList data (n + 2)).lookup 0 = some (chunkData data (n + 2) 0) :=
    lookup_partsList_zero data (n + 1)
  simp [stepFS, mergeStart, hl]

/-- In the rename-failure fallback, the state right after
`os.Create(destPath)` and the first `io.Copy` write holds exactly the
first chunk at the final path, and that state is reached by the trace. -/
lemma singleFail_partial_state_mem (body chunk : List Nat) (rest : List (List Nat)) :
    (⟨some body, [], some chunk⟩ : FS) ∈ singleFailStates body (chunk :: rest) := by
  rw [singleFailStates, singleFailOps]
  simp only [List.map_cons, List.cons_append, List.nil_append]
  rw [statesFS, statesFS, statesFS, statesFS, statesFS]
  refine List.mem_cons_of_mem _ (List.mem_cons_of_mem _ (List.mem_cons_of_mem _
    (List.mem_cons_of_mem _ (List.mem_cons_of_mem _ ?_))))
  exact self_mem_statesFS _ _

lemma merge_second_state_mem (data : List Nat) (n : Nat) :
    stepFS (stepFS (mergeStart data (n + 2)) FsOp.createFinal) (FsOp.appendPart 0) ∈
      mergeStates data (n + 2) := by
  have hops : mergeOps (n + 2) = FsOp.createFinal :: FsOp.appendPart 0 :: FsOp.removePart 0 ::
      (((List.range (n + 1)).map Nat.succ).flatMap
          (fun i => [FsOp.appendPart i, FsOp.removePart i]) ++ [FsOp.verifyFile]) := by
    rw [mergeOps, List.range_succ_eq_map]
    simp
  rw [mergeStates, hops, statesFS, statesFS]
  exact List.mem_cons_of_mem _ (List.mem_cons_of_mem _ (self_mem_statesFS _ _))

/-! ## Claim C1 -/

/-- C1, counterexample: with a 10-byte resource and 2 connections, the
merge phase of `concurrentDownload` reaches a filesystem state in which
the final destination path holds only the first 5 bytes — a partial byte
range is visible at the final path, refuting the claim as stated. -/
theorem c1_counterexample :
    ¬ finalOnlyComplete [0, 1, 2, 3, 4, 5, 6, 7, 8, 9]
      (mergeStates [0, 1, 2, 3, 4, 5, 6, 7, 8, 9] 2) := by
  decide

/-- C1, amended: on the execution where the rename succeeds, the
single-stream path writes only into the temporary file and the final
path never holds a partial byte range.  Both executions that stream into
the final destination path expose partial byte ranges there: the
single-stream rename-failure fallback (`os.Create(destPath)` +
incremental `io.Copy`, lines 187-224) shows the first copied chunk alone
at the final path whenever that chunk is not already the whole body, and
the multi-connection merge phase shows a proper partial prefix for every
resource of at least `N ≥ 2` bytes downloaded over `N` connections (with
verification only running on the already-final file afterwards). -/
theorem c1_amended (body data : List Nat) (N : Nat) (h2 : 2 ≤ N) (hNd : N ≤ data.length) :
    finalOnlyComplete body (singleStates body) ∧
    (∀ chunk rest, chunk ≠ body →
      ¬ finalOnlyComplete body (singleFailStates body (chunk :: rest))) ∧
    ¬ finalOnlyComplete data (mergeStates data N) := by
  refine ⟨?_, ?_, ?_⟩
  · intro st hst
    simp [singleStates, statesFS, singleOps, stepFS, FS.empty] at hst
    rcases hst with rfl | rfl | rfl | rfl | rfl <;> simp
  · intro chunk rest hne hcon
    have hdisj := hcon _ (singleFail_partial_state_mem body chunk rest)
    rcases hdisj with h | h
    · simp at h
    · simp only [Option.some.injEq] at h
      exact hne h
  · obtain ⟨n, rfl⟩ : ∃ n, N = n + 2 := ⟨N - 2, by omega⟩
    intro hcon
    have hdisj := hcon _ (merge_second_state_mem data n)
    rw [merge_second_state] at hdisj
    have hlen : data.length / (n + 2) < data.length :=
      Nat.div_lt_self (by omega) (by omega)
    rcases hdisj with h | h
    · simp at h
    · simp only [Option.some.injEq] at h
      rw [chunkData_zero data (n + 2) (by omega)] at h
      have h2l := congrArg List.length h
      rw [List.length_take, Nat.min_eq_left (le_of_lt hlen)] at h2l
      exact absurd h2l (Nat.ne_of_lt hlen)

/-- C1, witness for the amended theorem at `body = [7, 8]` (copied in
chunks `[7]`, `[8]` by the fallback), `data = [0,1,2,3]`, `N = 2`. -/
theorem c1_amended_witness :
    (2 ≤ 2 ∧ 2 ≤ ([0, 1, 2, 3] : List Nat).length ∧ ([7] : List Nat) ≠ [7, 8]) ∧
    (finalOnlyComplete [7, 8] (singleStates [7, 8]) ∧
      ¬ finalOnlyComplete [7, 8] (singleFailStates [7, 8] [[7], [8]]) ∧
      ¬ finalOnlyComplete [0, 1, 2, 3] (mergeStates [0, 1, 2, 3] 2)) :=
  ⟨⟨by decide, by decide, by decide⟩,
   (c1_amended [7, 8] [0, 1, 2, 3] 2 (by decide) (by decide)).1,
   (c1_amended [7, 8] [0, 1, 2, 3] 2 (by decide) (by decide)).2.1 [7] [[8]] (by decide),
   (c1_amended [7, 8] [0, 1, 2, 3] 2 (by decide) (by decide)).2.2⟩

/-! ## Claim C2 -/

/-- C2: for every total size `T ≥ 1` and worker count `1 ≤ N ≤ T`, the
inclusive byte ranges computed by `concurrentDownload`
(`start_i = i·(T/N)`, `end_i = start_i + T/N − 1` for `i < N−1`,
`end_{N−1} = T − 1`) are pairwise disjoint and their union is exactly
`[0, T)`. -/
theorem c2_ranges (T : Int) (N : Nat) (hT : 1 ≤ T) (hN : 1 ≤ N) (hNT : (N : Int) ≤ T) :
    (∀ i j, i < N → j < N → i ≠ j →
      Disjoint (taskRange T N i) (taskRange T N j)) ∧
    ∀ x : Int, (∃ i, i < N ∧ x ∈ taskRange T N i) ↔ 0 ≤ x ∧ x < T := by
  obtain ⟨t, rfl⟩ : ∃ t : ℕ, T = (t : Int) :=
    ⟨T.toNat, (Int.toNat_of_nonneg (by omega)).symm⟩
  have hNt : N ≤ t := by exact_mod_cast hNT
  constructor
  · intro i j hi hj hij
    rcases Nat.lt_or_ge i j with h | h
    · exact taskRange_disjoint_of_lt t N i j hj h
    · have h' : j < i := by omega
      exact (taskRange_disjoint_of_lt t N j i hi h').symm
  · intro x
    exact taskRange_cover t N hN hNt x

/-- C2, witness at `T = 10`, `N = 3`: tasks 0 and 1 are disjoint and
offset 7 is covered. -/
theorem c2_ranges_witness :
    Disjoint (taskRange 10 3 0) (taskRange 10 3 1) ∧
    ∃ i, i < 3 ∧ (7 : Int) ∈ taskRange 10 3 i :=
  ⟨(c2_ranges 10 3 (by decide) (by decide) (by decide)).1 0 1 (by decide) (by decide)
      (by decide),
   ((c2_ranges 10 3 (by decide) (by decide) (by decide)).2 7).2 (by decide)⟩

/-! ## Claim C3 -/

/-- C3: `VerifyChecksum` verifies against the first non-empty digest in
the precedence order user MD5, user SHA-256, server MD5, server SHA-256:
it returns `nil` iff the corresponding hex hash of the file equals that
digest (so an error iff it differs), and when all four candidates are
empty it returns `nil` having computed no hash at all. -/
theorem c3_verifyChecksum (md5Hex sha256Hex : List Nat → String) (file : List Nat)
    (md5sum sha256sum serverMD5 serverSHA256 : String) :
    ((VerifyChecksum md5Hex sha256Hex file md5sum sha256sum serverMD5 serverSHA256).1 = none ↔
      (match firstCandidate md5sum sha256sum serverMD5 serverSHA256 with
        | none => True
        | some (kind, digest) => hashOf md5Hex sha256Hex kind file = digest)) ∧
    VerifyChecksum md5Hex sha256Hex file "" "" "" "" = (none, 0) := by
  constructor
  · unfold VerifyChecksum firstCandidate hashOf
    split_ifs <;> simp_all
  · rfl

/-! ## Claim C4 -/

/-- C4: evaluating `singleDownload`'s tail at a failing input — a file
whose MD5 hex digest (here abstracted as the constant `"0a"`) differs
from the user-supplied digest `"ffff"` — the function returns the
mismatch error, yet the temporary file has NOT been deleted when it
returns: the deferred cleanup tests the function-scope `err` variable,
which the shadowed verification error of line 153 never sets.  This
contradicts both the claim and the code's own cleanup comment
(line 110, "if download failed, remove temp file"). -/
theorem c4_mismatchLeavesTemp :
    (singleDownloadOutcome (fun _ => "0a") (fun _ => "0b") [1, 2, 3] "ffff" "" "" "").ret =
      some "MD5 checksum mismatch: expected ffff, got 0a" ∧
    (singleDownloadOutcome (fun _ => "0a") (fun _ => "0b") [1, 2, 3] "ffff" "" "" "").tempDeleted =
      false := by
  constructor <;> rfl

/-! ## Claim C5 -/

/-- C5, counterexample: a probe response with `Accept-Ranges: bytes` and
status 404 fails the claim's range-support condition, yet
`concurrentDownload` does not fall back — it proceeds on the ranged
path, because the code never consults the status. -/
theorem c5_counterexample :
    specRangesSupported "bytes" 404 = false ∧
    concurrentDispatch "bytes" = DownloadPath.ranged := by
  decide

/-- C5, amended: the concurrent path falls back to the single-stream
path iff the probe's `Accept-Ranges` header differs from `bytes`; the
response status is not part of that decision, and the 200/206 check is
enforced only inside the single-stream path. -/
theorem c5_amended :
    (∀ hdr : String, concurrentDispatch hdr = DownloadPath.single ↔ hdr ≠ "bytes") ∧
    ∀ status : Int, singleStatusAccepted status = true ↔ status = 200 ∨ status = 206 := by
  constructor
  · intro hdr
    by_cases h : hdr = "bytes" <;> simp [concurrentDispatch, h]
  · intro status
    by_cases h2 : status = 200 <;> by_cases h6 : status = 206 <;>
      simp [singleStatusAccepted, h2, h6]

/-! ## Claim C6 -/

/-- C6, counterexample: requesting 20 connections produces 20 range
tasks, not `clamp(20, 1, 16) = 16`; and with `total = 2 < N = 4` the
code produces zero-length tasks (`end = −1 < start = 0`) instead of
reducing `N`. -/
theorem c6_counterexample :
    (tasks 1000 20).length = 20 ∧ claimedEffectiveN 20 = 16 ∧ (20 : Nat) ≠ 16 ∧
    ∃ p ∈ tasks 2 4, p.2 < p.1 := by
  decide

/-- C6, amended: the engine performs no clamping — for any requested
`N ≥ 1` taken onto the concurrent path, exactly `N` range tasks are
produced; each task is non-empty whenever `N ≤ total`; and whenever
`total < N` every non-final task is empty (`end < start`), with no
reduction of `N`. -/
theorem c6_amended (T : Int) (N : Nat) (hN : 1 ≤ N) :
    (tasks T N).length = N ∧
    (1 ≤ T → (N : Int) ≤ T → ∀ p ∈ tasks T N, p.1 ≤ p.2) ∧
    (0 ≤ T → T < (N : Int) → ∀ i, i < N - 1 → taskEnd T N i < taskStart T N i) := by
  refine ⟨by simp [tasks], ?_, ?_⟩
  · intro hT hNT p hp
    obtain ⟨t, rfl⟩ : ∃ t : ℕ, T = (t : Int) :=
      ⟨T.toNat, (Int.toNat_of_nonneg (by omega)).symm⟩
    have hNt : N ≤ t := by exact_mod_cast hNT
    have hc1 : 1 ≤ t / N := (Nat.one_le_div_iff (by omega)).2 hNt
    simp only [tasks, List.mem_map, List.mem_range] at hp
    obtain ⟨i, hi, rfl⟩ := hp
    by_cases hl : i = N - 1
    · subst hl
      rw [taskEnd_natCast_last, taskStart_natCast]
      have hmul2 : (N - 1) * (t / N) + 1 ≤ t := by
        have hexp : (N - 1) * (t / N) + t / N = ((N - 1) + 1) * (t / N) :=
          (Nat.succ_mul _ _).symm
        have h1 : ((N - 1) + 1) * (t / N) = N * (t / N) := by
          congr 1
          omega
        have h2 : N * (t / N) ≤ t := by
          calc N * (t / N) = t / N * N := by ring
          _ ≤ t := Nat.div_mul_le_self t N
        calc (N - 1) * (t / N) + 1 ≤ (N - 1) * (t / N) + t / N :=
              Nat.add_le_add_left hc1 _
          _ = ((N - 1) + 1) * (t / N) := hexp
          _ = N * (t / N) := h1
          _ ≤ t := h2
      have hcast : (((N - 1) * (t / N) : ℕ) : Int) + 1 ≤ (t : Int) := by
        exact_mod_cast hmul2
      omega
    · rw [taskEnd_natCast_mid _ _ _ hl, taskStart_natCast]
      have hcast : (1 : Int) ≤ ((t / N : ℕ) : Int) := by exact_mod_cast hc1
      omega
  · intro h0 hTN i hi
    obtain ⟨t, rfl⟩ : ∃ t : ℕ, T = (t : Int) :=
      ⟨T.toNat, (Int.toNat_of_nonneg h0).symm⟩
    have ht : t < N := by exact_mod_cast hTN
    have hc0 : t / N = 0 := Nat.div_eq_of_lt ht
    have hne : i ≠ N - 1 := by omega
    rw [taskEnd_natCast_mid _ _ _ hne, taskStart_natCast, hc0]
    simp

/-- C6, witness for the amended theorem at `(T, N) = (10, 3)` and
`(2, 4)`. -/
theorem c6_amended_witness :
    (tasks 10 3).length = 3 ∧ (tasks 2 4).length = 4 ∧
    (∀ p ∈ tasks 10 3, p.1 ≤ p.2) ∧
    ∀ i, i < 4 - 1 → taskEnd 2 4 i < taskStart 2 4 i :=
  ⟨(c6_amended 10 3 (by decide)).1,
   (c6_amended 2 4 (by decide)).1,
   (c6_amended 10 3 (by decide)).2.1 (by decide) (by decide),
   (c6_amended 2 4 (by decide)).2.2 (by decide) (by decide)⟩

/-! ## Claim C7 -/

/-- C7, counterexample: a response whose Content-Disposition yields the
non-empty name `cd.txt` but whose sniffed body is a ZIP local file header
with internal name `inside.bin` resolves to `inside.bin`, not `cd.txt`:
the ZIP branch runs after and overrides the Content-Disposition name. -/
theorem c7_counterexample :
    DetermineFilename "/y/page" (some "cd.txt")
        ([0x50, 0x4B, 0x03, 0x04] ++ List.replicate 22 0 ++ [10, 0, 0, 0] ++
          [105, 110, 115, 105, 100, 101, 46, 98, 105, 110]) none = "inside.bin" ∧
    "inside.bin" ≠ "cd.txt" := by
  decide

/-- C7, amended: the ZIP local-file-header name, whenever the ZIP branch
yields one, determines the resolved filename (its base name, then the
common extension/fallback step), overriding Content-Disposition; the
non-empty Content-Disposition name is used exactly when the ZIP branch
yields none, taking priority over the URL path segment and the default. -/
theorem c7_amended (parsedPath : String) (cd : Option String) (header : List Nat)
    (ftExt : Option String) :
    (∀ z, zipNameOf header = some z →
      DetermineFilename parsedPath cd header ftExt = finishName (goBase z) ftExt) ∧
    (zipNameOf header = none →
      ∀ name, cd = some name → name ≠ "" →
        DetermineFilename parsedPath cd header ftExt = finishName (goBase name) ftExt) := by
  constructor
  · intro z hz
    simp [DetermineFilename, hz]
  · intro hz name hcd hne
    subst hcd
    simp [DetermineFilename, hz, hne]

/-- C7, witness: the amended theorem applied at the ZIP counterexample
input and at a ZIP-free response carrying only a Content-Disposition
name. -/
theorem c7_amended_witness :
    DetermineFilename "/y/page" (some "cd.txt")
        ([0x50, 0x4B, 0x03, 0x04] ++ List.replicate 22 0 ++ [10, 0, 0, 0] ++
          [105, 110, 115, 105, 100, 101, 46, 98, 105, 110]) none =
      finishName (goBase "inside.bin") none ∧
    DetermineFilename "/y/page" (some "cd.txt") [] none = finishName (goBase "cd.txt") none :=
  ⟨(c7_amended "/y/page" (some "cd.txt") _ none).1 "inside.bin" (by decide),
   (c7_amended "/y/page" (some "cd.txt") [] none).2 (by decide) "cd.txt" rfl (by decide)⟩

/-! ## Claim C8 -/

/-- C8, counterexample: the repository's own unit test fixes
`sanitizeFilename(".") = "."`, while the claimed transformation (trim,
replace, then substitute `download.bin` for empty, `"."` or `"/"`) maps
`"."` to `"download.bin"`.  The test also expects `"/" ↦ "_"` and
whitespace-only input `↦ ""`, never `download.bin`. -/
theorem c8_counterexample :
    (".", ".") ∈ sanitizeTests ∧ sanitizeFilenameSpec "." = "download.bin" ∧
    ("/", "_") ∈ sanitizeTests ∧ ("   ", "") ∈ sanitizeTests := by
  decide

/-- C8, amended: `sanitizeFilename` (as pinned by `TestSanitizeFilename`)
normalizes backslashes to slashes, reduces the name to its base path
component, trims surrounding whitespace and replaces the special
characters `/ \ : * ? " < > |` with `_`; it performs no `download.bin`
substitution (`"."` stays `"."`, `"/"` becomes `"_"`, whitespace-only
input becomes empty — that fallback lives in `DetermineFilename`), and
its result never contains a path separator.  The model satisfies every
row of the unit test. -/
theorem c8_amended :
    (sanitizeTests.all fun r => sanitizeFilename r.1 == r.2) = true ∧
    ∀ s : String, ∀ c ∈ (sanitizeFilename s).data, c ∉ badChars := by
  constructor
  · decide
  · intro s c hc
    obtain ⟨a, _, rfl⟩ := List.mem_map.1 hc
    by_cases hb : a ∈ badChars
    · simp only [if_pos hb]
      decide
    · simp only [if_neg hb]
      exact hb

/-! ## Claims C9 and C10 -/

lemma lookup_updateState (sts : List (Int × ProgressState)) (sid : Int)
    (f : ProgressState → ProgressState) :
    (updateState sts sid f).lookup sid = (sts.lookup sid).map f := by
  induction sts with
  | nil => rfl
  | cons p rest ih =>
    obtain ⟨k, v⟩ := p
    rw [updateState, List.map_cons]
    by_cases h : k = sid
    · subst h
      rw [if_pos rfl]
      simp [List.lookup]
    · have hbeq : (sid == k) = false := beq_eq_false_iff_ne.mpr (Ne.symm h)
      rw [if_neg h]
      simp only [List.lookup, hbeq]
      exact ih

lemma lookup_filter_self {β : Type} (l : List (Int × β)) (id : Int) :
    (l.filter fun p => p.1 != id).lookup id = none := by
  induction l with
  | nil => rfl
  | cons p rest ih =>
    obtain ⟨k, v⟩ := p
    by_cases h : k = id
    · subst h
      simp [ih]
    · have hbeq : (id == k) = false := beq_eq_false_iff_ne.mpr (Ne.symm h)
      have hkeep : ((k, v).1 != id) = true := by
        simp [bne, beq_eq_false_iff_ne.mpr h]
      rw [List.filter_cons, if_pos hkeep]
      simp only [List.lookup, hbeq]
      exact ih

/-- C9: for a registered download `id` whose config points at progress
state `sid = ps`, `Pause id` leaves the `downloads` map unchanged (the
entry stays registered for Resume), marks the state paused with its
cancel function invoked, and emits `DownloadPausedMsg` carrying the
current downloaded count; `Cancel id` is the operation that removes the
entry from the map and stores `done = true` on the state. -/
theorem c9_pauseCancel (pool : WorkerPool) (id : Int) (ad : ActiveDownload) (sid : Int)
    (ps : ProgressState)
    (had : pool.downloads.lookup id = some ad)
    (hsid : ad.stateId = some sid)
    (hps : pool.states.lookup sid = some ps) :
    ((pool.Pause id).downloads = pool.downloads ∧
      (pool.Pause id).states.lookup sid =
        some { ps with paused := true, cancelInvoked := true } ∧
      (pool.Pause id).sent = pool.sent ++ [QueueMsg.downloadPausedMsg id ps.downloaded]) ∧
    ((pool.Cancel id).downloads.lookup id = none ∧
      (pool.Cancel id).states.lookup sid = some { ps with done := true }) := by
  have hlp : (updateState pool.states sid ProgressState.pauseState).lookup sid =
      some (ProgressState.pauseState ps) := by
    rw [lookup_updateState, hps]
    rfl
  constructor
  · refine ⟨?_, ?_, ?_⟩ <;>
      simp [WorkerPool.Pause, had, hsid, hlp, ProgressState.pauseState]
  · constructor
    · simp [WorkerPool.Cancel, had, lookup_filter_self]
    · simp [WorkerPool.Cancel, had, hsid, lookup_updateState, hps]

/-- C9, witness: a pool with one active download (`id = 1`, state
`sid = 1`, 42 bytes downloaded). -/
theorem c9_pauseCancel_witness :
    ((WorkerPool.Pause ⟨[(1, ⟨some 1, true⟩)], [(1, ⟨1, 100, 42, false, false, false⟩)],
          [], [], []⟩ 1).downloads = [(1, ⟨some 1, true⟩)] ∧
      (WorkerPool.Pause ⟨[(1, ⟨some 1, true⟩)], [(1, ⟨1, 100, 42, false, false, false⟩)],
          [], [], []⟩ 1).states.lookup 1 = some ⟨1, 100, 42, true, false, true⟩ ∧
      (WorkerPool.Pause ⟨[(1, ⟨some 1, true⟩)], [(1, ⟨1, 100, 42, false, false, false⟩)],
          [], [], []⟩ 1).sent = [] ++ [QueueMsg.downloadPausedMsg 1 42]) ∧
    ((WorkerPool.Cancel ⟨[(1, ⟨some 1, true⟩)], [(1, ⟨1, 100, 42, false, false, false⟩)],
          [], [], []⟩ 1).downloads.lookup 1 = none ∧
      (WorkerPool.Cancel ⟨[(1, ⟨some 1, true⟩)], [(1, ⟨1, 100, 42, false, false, false⟩)],
          [], [], []⟩ 1).states.lookup 1 = some ⟨1, 100, 42, false, true, false⟩) :=
  c9_pauseCancel
    ⟨[(1, ⟨some 1, true⟩)], [(1, ⟨1, 100, 42, false, false, false⟩)], [], [], []⟩
    1 ⟨some 1, true⟩ 1 ⟨1, 100, 42, false, false, false⟩ (by decide) rfl (by decide)

/-- C10: for an id absent from the `downloads` map, `Pause`, `Resume`
and `Cancel` are complete no-ops: the pool state — map, state heap,
queue, sent messages, invoked cancels — is unchanged. -/
theorem c10_unknownIdNoop (pool : WorkerPool) (id : Int)
    (h : pool.downloads.lookup id = none) :
    pool.Pause id = pool ∧ pool.Resume id = pool ∧ pool.Cancel id = pool := by
  refine ⟨?_, ?_, ?_⟩ <;>
    simp [WorkerPool.Pause, WorkerPool.Resume, WorkerPool.Cancel, h]

/-- C10, witness: the empty pool and id 5. -/
theorem c10_unknownIdNoop_witness :
    WorkerPool.Pause ⟨[], [], [], [], []⟩ 5 = ⟨[], [], [], [], []⟩ ∧
    WorkerPool.Resume ⟨[], [], [], [], []⟩ 5 = ⟨[], [], [], [], []⟩ ∧
    WorkerPool.Cancel ⟨[], [], [], [], []⟩ 5 = ⟨[], [], [], [], []⟩ :=
  c10_unknownIdNoop ⟨[], [], [], [], []⟩ 5 (by decide)

end Surge
